import Mathlib

/-!
Verification development for the AdriaMoney PDF constructor
(`src/pdf_costructor.py`).  The amortization engine, the grid coordinate
arithmetic, the contratto image-overlay branch and the money formatter are
shallowly embedded below; Python floats are modelled by exact rationals and
the builtin `round(x, 2)` by round-half-to-even at two decimal places.
-/

namespace AdriaMoney

/-- Round-half-to-even of a rational to an integer, the tie-to-even behaviour
documented for Python's builtin `round` (the source uses the builtin
`round(x, 2)` everywhere; the `ROUND_HALF_UP` constant imported at line 9 of
the source is never used). -/
def rhe (x : ℚ) : ℤ :=
  let n := ⌊x⌋
  let r := x - n
  if r < 1/2 then n
  else if 1/2 < r then n + 1
  else if n % 2 = 0 then n else n + 1

/-- Python `round(x, 2)`: round to two decimal places. -/
def round2 (x : ℚ) : ℚ := rhe (100 * x) / 100

/-- One row of the amortization schedule: the dict appended at lines 56-62 of
the source. -/
structure Row where
  month : ℕ
  payment : ℚ
  interest : ℚ
  principal : ℚ
  balance : ℚ
deriving DecidableEq

/-- Annuity monthly payment, from `monthly_payment` (source lines 21-28). -/
def monthly_payment (amount : ℚ) (months : ℕ) (annual_rate : ℚ) : ℚ :=
  let r := annual_rate / 100 / 12
  if r = 0 then round2 (amount / months)
  else round2 (amount * r * (1 + r) ^ months / ((1 + r) ^ months - 1))

/-- Body of one iteration of the loop of `calculate_amortization_schedule`
(source lines 39-62): interest and principal are rounded to cents, the final
month (`i == months`) instead repays the whole balance and recomputes the
payment, and a negative rounded balance is clamped to zero. -/
def amortRow (mrate payment : ℚ) (months i : ℕ) (balance : ℚ) : Row :=
  let interest := round2 (balance * mrate)
  let principal := if i = months then balance else round2 (payment - interest)
  let pay := if i = months then balance + interest else payment
  let balance1 := round2 (balance - principal)
  ⟨i, pay, interest, principal, if balance1 < 0 then 0 else balance1⟩

/-- The loop of `calculate_amortization_schedule`, by recursion on the number
of remaining iterations `fuel`, current month `i` and running balance;
returns the rows together with the accumulated total interest. -/
def amortAux (mrate payment : ℚ) (months : ℕ) : ℕ → ℕ → ℚ → List Row × ℚ
  | 0, _, _ => ([], 0)
  | fuel + 1, i, balance =>
    let row := amortRow mrate payment months i balance
    let rest := amortAux mrate payment months fuel (i + 1) row.balance
    (row :: rest.1, row.interest + rest.2)

/-- `calculate_amortization_schedule` (source lines 30-64). -/
def calculate_amortization_schedule (amount : ℚ) (months : ℕ) (annual_rate : ℚ) :
    List Row × ℚ :=
  let monthly_rate := annual_rate / 100 / 12
  let payment := monthly_payment amount months annual_rate
  amortAux monthly_rate payment months months 1 amount

/-- Check that every row except possibly the last stores exactly the previous
balance minus its own principal component, i.e. that neither the `round` nor
the negative-balance clamp of source line 49-52 ever adjusted the running
balance before the final month.  `prev` is the balance before the first listed
row. -/
def chainOk (prev : ℚ) : List Row → Bool
  | [] => true
  | r :: rest =>
    match rest with
    | [] => true
    | _ :: _ => (r.balance == prev - r.principal) && chainOk r.balance rest

/-- A rational that is a whole number of cents. -/
def IsCents (x : ℚ) : Prop := ∃ z : ℤ, x = z / 100

/-- Following the spec's words, not the source: round-half-up at 2 decimal
places, ties away from zero (the decimal `ROUND_HALF_UP` convention the spec
names as the engine's per-step rounding mode).  To be compared against
`round2`, the rounding the source actually performs. -/
def round2_half_up (x : ℚ) : ℚ :=
  if 0 ≤ x then (⌊100 * x + 1/2⌋ : ℚ) / 100
  else -((⌊-(100 * x) + 1/2⌋ : ℚ) / 100)

/-- Following the spec's words, not the source: `monthly_payment` with the
spec's round-half-up mode in place of the source's builtin `round`. -/
def monthly_payment_half_up (amount : ℚ) (months : ℕ) (annual_rate : ℚ) : ℚ :=
  let r := annual_rate / 100 / 12
  if r = 0 then round2_half_up (amount / months)
  else round2_half_up (amount * r * (1 + r) ^ months / ((1 + r) ^ months - 1))

/-- Sequential 1-based cell index to a (row, column) pair on the 25-column
grid, the `row = (index - 1) // 25`, `col = (index - 1) % 25` pattern used
throughout `_add_images_to_pdf` (e.g. source lines 417-418). -/
def indexToRowCol (idx : ℕ) : ℕ × ℕ := ((idx - 1) / 25, (idx - 1) % 25)

/-- The inverse direction stated by the spec's data model:
`index = row * columns + column + 1` with 25 columns. -/
def rowColToIndex (r c : ℕ) : ℕ := r * 25 + c + 1

/-- Top-left-origin to bottom-left-origin y flip at the fixed A4 page height
of 297 mm: the `297 - y` pattern of every y coordinate in
`_add_images_to_pdf` (e.g. source line 506). -/
def flipY (y : ℚ) : ℚ := 297 - y

/-- Character for a decimal digit `d < 10`. -/
def digitChar (d : ℕ) : Char := Char.ofNat (48 + d)

/-- Decimal digit characters of a natural number, most significant first,
with enough fuel. -/
def natDigitsAux : ℕ → ℕ → List Char
  | 0, _ => []
  | fuel + 1, n =>
    if n < 10 then [digitChar n] else natDigitsAux fuel (n / 10) ++ [digitChar (n % 10)]

/-- Decimal digit characters of a natural number, most significant first. -/
def natDigits (n : ℕ) : List Char := natDigitsAux (n + 1) n

/-- Insert the thousands separator after every three digits counted from the
right; operates on the reversed digit list.  Python's `:,` format inserts a
comma which `format_money` immediately replaces by a space (source line 13),
so the separator here is the space directly. -/
def groupRev : List Char → List Char
  | c₁ :: c₂ :: c₃ :: c₄ :: rest => c₁ :: c₂ :: c₃ :: ' ' :: groupRev (c₄ :: rest)
  | l => l

/-- Group the digits of the integer part in threes separated by spaces. -/
def groupDigits (ds : List Char) : List Char := (groupRev ds.reverse).reverse

/-- The `format_money` function (source lines 11-13):
`f-string` formatting with comma grouping and two decimals followed by
`.replace(",", " ")`, modelled on the exact rational value of the float
argument (the value is first rounded to cents, tie to even, as float
formatting does). -/
def format_money (q : ℚ) : String :=
  let cents : ℤ := rhe (100 * q)
  let n := cents.natAbs
  let signChars : List Char := if q < 0 then ['-'] else []
  String.mk (signChars ++ groupDigits (natDigits (n / 100)) ++
    ['.', digitChar (n % 100 / 10), digitChar (n % 100 % 10)])

theorem rhe_intCast (z : ℤ) : rhe (z : ℚ) = z := by
  unfold rhe
  rw [Int.floor_intCast]
  norm_num

theorem round2_isCents (x : ℚ) : IsCents (round2 x) := ⟨rhe (100 * x), rfl⟩

theorem round2_eq_self {x : ℚ} (h : IsCents x) : round2 x = x := by
  obtain ⟨z, rfl⟩ := h
  unfold round2
  rw [mul_comm, div_mul_cancel₀ _ (by norm_num : (100 : ℚ) ≠ 0), rhe_intCast]

theorem round2_zero : round2 0 = 0 := by
  have : ((0 : ℤ) : ℚ) = 0 := by norm_num
  rw [← this]
  exact round2_eq_self ⟨0, by norm_num⟩

theorem rhe_spec (y : ℚ) :
    |((rhe y : ℤ) : ℚ) - y| ≤ 1 / 2 ∧
      (|((rhe y : ℤ) : ℚ) - y| = 1 / 2 → rhe y % 2 = 0) := by
  have h0 : (⌊y⌋ : ℚ) ≤ y := Int.floor_le y
  have h1 : y < ⌊y⌋ + 1 := Int.lt_floor_add_one y
  simp only [rhe]
  split_ifs with hlt hgt heven
  · constructor
    · rw [abs_sub_comm, abs_of_nonneg (by linarith)]
      linarith
    · intro he
      rw [abs_sub_comm, abs_of_nonneg (by linarith)] at he
      exfalso
      linarith
  · have hgt' : 1 / 2 < y - ⌊y⌋ := hgt
    constructor
    · push_cast
      rw [abs_of_nonneg (by linarith)]
      linarith
    · intro he
      push_cast at he
      rw [abs_of_nonneg (by linarith)] at he
      exfalso
      linarith
  · have hr : y - ⌊y⌋ = 1 / 2 := by
      have ha := not_lt.1 hlt
      have hb := not_lt.1 hgt
      linarith
    constructor
    · rw [abs_sub_comm, abs_of_nonneg (by linarith)]
      linarith
    · intro _
      exact heven
  · have hr : y - ⌊y⌋ = 1 / 2 := by
      have ha := not_lt.1 hlt
      have hb := not_lt.1 hgt
      linarith
    constructor
    · push_cast
      rw [abs_of_nonneg (by linarith)]
      linarith
    · intro _
      omega

theorem round2_ties_even (x : ℚ) :
    ∃ z : ℤ, round2 x = (z : ℚ) / 100 ∧ |(z : ℚ) - 100 * x| ≤ 1 / 2 ∧
      (|(z : ℚ) - 100 * x| = 1 / 2 → z % 2 = 0) :=
  ⟨rhe (100 * x), rfl, (rhe_spec (100 * x)).1, (rhe_spec (100 * x)).2⟩

theorem IsCents.sub {x y : ℚ} : IsCents x → IsCents y → IsCents (x - y) :=
  fun ⟨a, ha⟩ ⟨b, hb⟩ => ⟨a - b, by rw [ha, hb]; push_cast; ring⟩

theorem monthly_payment_isCents (amount : ℚ) (months : ℕ) (annual_rate : ℚ) :
    IsCents (monthly_payment amount months annual_rate) := by
  simp only [monthly_payment]
  split
  · exact round2_isCents _
  · exact round2_isCents _

theorem amortAux_length (mrate payment : ℚ) (months : ℕ) :
    ∀ fuel i b, ((amortAux mrate payment months fuel i b).1).length = fuel := by
  intro fuel
  induction fuel with
  | zero => intro i b; rfl
  | succ k ih => intro i b; simp [amortAux, ih]

theorem amortAux_zero (mrate payment : ℚ) (months i : ℕ) (b : ℚ) :
    amortAux mrate payment months 0 i b = ([], 0) := rfl

theorem amortAux_succ (mrate payment : ℚ) (months fuel i : ℕ) (b : ℚ) :
    amortAux mrate payment months (fuel + 1) i b =
      (amortRow mrate payment months i b ::
        (amortAux mrate payment months fuel (i + 1)
          (amortRow mrate payment months i b).balance).1,
       (amortRow mrate payment months i b).interest +
        (amortAux mrate payment months fuel (i + 1)
          (amortRow mrate payment months i b).balance).2) := rfl

theorem calc_def (amount : ℚ) (months : ℕ) (annual_rate : ℚ) :
    calculate_amortization_schedule amount months annual_rate =
      amortAux (annual_rate / 100 / 12) (monthly_payment amount months annual_rate)
        months months 1 amount := rfl

theorem chainOk_cons_cons (prev : ℚ) (r c : Row) (t : List Row) :
    chainOk prev (r :: c :: t) =
      ((r.balance == prev - r.principal) && chainOk r.balance (c :: t)) := rfl

theorem amortRow_balance_self (mrate payment : ℚ) (months : ℕ) (b : ℚ) :
    (amortRow mrate payment months months b).balance = 0 := by
  simp [amortRow, sub_self, round2_zero]

theorem amortRow_principal_self (mrate payment : ℚ) (months : ℕ) (b : ℚ) :
    (amortRow mrate payment months months b).principal = b := by
  simp [amortRow]

theorem amortAux_last_sum (mrate payment : ℚ) (months : ℕ) :
    ∀ fuel i b, i + fuel = months + 1 → 1 ≤ fuel →
      ((amortAux mrate payment months fuel i b).1.getLast?.map Row.balance = some 0) ∧
      (chainOk b (amortAux mrate payment months fuel i b).1 = true →
        ((amortAux mrate payment months fuel i b).1.map Row.principal).sum = b) := by
  intro fuel
  induction fuel with
  | zero => intro i b _ h1; exact absurd h1 (by omega)
  | succ k ih =>
    intro i b hinv _
    cases k with
    | zero =>
      have hi : i = months := by omega
      subst hi
      rw [amortAux_succ, amortAux_zero]
      constructor
      · simp [List.getLast?, amortRow_balance_self]
      · intro _
        simp [amortRow_principal_self]
    | succ k' =>
      have hi : (i : ℕ) ≠ months := by omega
      rw [amortAux_succ]
      dsimp only
      have hlen := amortAux_length mrate payment months (k' + 1) (i + 1)
        (amortRow mrate payment months i b).balance
      have hne : (amortAux mrate payment months (k' + 1) (i + 1)
          (amortRow mrate payment months i b).balance).1 ≠ [] := by
        intro h; rw [h] at hlen; simp at hlen
      obtain ⟨c, t, hct⟩ := List.exists_cons_of_ne_nil hne
      have hrec := ih (i + 1) (amortRow mrate payment months i b).balance
        (by omega) (by omega)
      constructor
      · rw [hct]
        rw [List.getLast?_cons_cons]
        rw [hct] at hrec
        exact hrec.1
      · intro hch
        rw [hct] at hch hrec ⊢
        rw [chainOk_cons_cons, Bool.and_eq_true, beq_iff_eq] at hch
        obtain ⟨hb, hrest⟩ := hch
        rw [List.map_cons, List.sum_cons, hrec.2 hrest, hb]
        ring

theorem amortAux_payment_split (mrate payment : ℚ) (months : ℕ) (hp : IsCents payment) :
    ∀ fuel i b r, r ∈ (amortAux mrate payment months fuel i b).1 →
      r.payment = r.interest + r.principal := by
  intro fuel
  induction fuel with
  | zero => intro i b r hr; rw [amortAux_zero] at hr; simp at hr
  | succ k ih =>
    intro i b r hr
    rw [amortAux_succ] at hr
    rcases List.mem_cons.1 hr with h | h
    · subst h
      by_cases hi : i = months
      · simp only [amortRow, if_pos hi]
        ring
      · simp only [amortRow, if_neg hi]
        rw [round2_eq_self (hp.sub (round2_isCents _))]
        ring
    · exact ih (i + 1) _ r h

theorem amortAux_zero_rate_interest (payment : ℚ) (months : ℕ) :
    ∀ fuel i b r, r ∈ (amortAux 0 payment months fuel i b).1 → r.interest = 0 := by
  intro fuel
  induction fuel with
  | zero => intro i b r hr; rw [amortAux_zero] at hr; simp at hr
  | succ k ih =>
    intro i b r hr
    rw [amortAux_succ] at hr
    rcases List.mem_cons.1 hr with h | h
    · subst h
      simp [amortRow, mul_zero, round2_zero]
    · exact ih (i + 1) _ r h

theorem amortAux_zero_rate_principal (payment : ℚ) (months : ℕ) (hp : IsCents payment) :
    ∀ fuel i b, i + fuel = months + 1 →
      ∀ r ∈ ((amortAux 0 payment months fuel i b).1).dropLast, r.principal = payment := by
  intro fuel
  induction fuel with
  | zero => intro i b _ r hr; rw [amortAux_zero] at hr; simp at hr
  | succ k ih =>
    intro i b hinv r hr
    rw [amortAux_succ] at hr
    cases k with
    | zero =>
      rw [amortAux_zero] at hr
      simp at hr
    | succ k' =>
      have hi : (i : ℕ) ≠ months := by omega
      dsimp only at hr
      have hlen := amortAux_length 0 payment months (k' + 1) (i + 1)
        (amortRow 0 payment months i b).balance
      have hne : (amortAux 0 payment months (k' + 1) (i + 1)
          (amortRow 0 payment months i b).balance).1 ≠ [] := by
        intro h; rw [h] at hlen; simp at hlen
      obtain ⟨c, t, hct⟩ := List.exists_cons_of_ne_nil hne
      rw [hct, List.dropLast_cons₂] at hr
      rcases List.mem_cons.1 hr with h | h
      · subst h
        simp only [amortRow, if_neg hi]
        rw [mul_zero, round2_zero, sub_zero, round2_eq_self hp]
      · refine ih (i + 1) (amortRow 0 payment months i b).balance (by omega) r ?_
        rw [hct]
        exact h

attribute [local semireducible] Rat.add Rat.mul Rat.inv Rat.sub Rat.ofScientific

set_option maxRecDepth 10000 in
/-- C1 counterexample: for the valid input principal 0.07, 12 months, zero
rate, the rounded payment 0.01 exhausts the balance after month 7, the
negative-balance clamp fires in months 8 to 11, and the principal components
sum to 0.11, not to the principal 0.07. -/
theorem sum_principal_ne_principal_cex :
    ((calculate_amortization_schedule (7/100) 12 0).1.map Row.principal).sum ≠ 7/100 := by
  decide

/-- C1 (amended): for a term of at least one month the last row's remaining
balance is exactly 0; and whenever the stored balances chain exactly
(`chainOk`: no mid-schedule rounding or clamping adjustment of the running
balance), the principal components sum exactly to the principal. -/
theorem schedule_closure (amount : ℚ) (months : ℕ) (annual_rate : ℚ) (h : 1 ≤ months) :
    ((calculate_amortization_schedule amount months annual_rate).1.getLast?.map Row.balance
      = some 0) ∧
    (chainOk amount (calculate_amortization_schedule amount months annual_rate).1 = true →
      ((calculate_amortization_schedule amount months annual_rate).1.map Row.principal).sum
        = amount) := by
  rw [calc_def]
  exact amortAux_last_sum _ _ months months 1 amount (by omega) h

set_option maxRecDepth 10000 in
/-- C1 witness at the concrete valid input (1200, 12, 0). -/
theorem schedule_closure_witness :
    ((calculate_amortization_schedule 1200 12 0).1.getLast?.map Row.balance = some 0) ∧
    ((calculate_amortization_schedule 1200 12 0).1.map Row.principal).sum = 1200 :=
  ⟨(schedule_closure 1200 12 0 (by omega)).1,
   (schedule_closure 1200 12 0 (by omega)).2 (by decide)⟩

set_option maxRecDepth 10000 in
/-- C2 counterexample: at compute(0.25, 2, 0) the payment step rounds the
tie 0.125 (which is binary-exact, so the float code provably behaves as the
rational model does) to the even cent 0.12, where round-half-up demands
0.13: the engine's rounding is not round-half-up. -/
theorem rounding_not_half_up_cex :
    monthly_payment (1/4) 2 0 = 12/100 ∧
    monthly_payment_half_up (1/4) 2 0 = 13/100 ∧
    monthly_payment (1/4) 2 0 ≠ monthly_payment_half_up (1/4) 2 0 := by
  refine ⟨by decide, by decide, by decide⟩

/-- C2 (amended): every intermediate rounding step of the engine goes through
`round2`, which rounds to the nearest multiple of a cent with a tie taken to
the even cent (Python's builtin `round`), not round-half-up: a half-up
implementation diverges from the code, e.g. on the payment of
compute(0.25, 2, 0). -/
theorem rounding_half_even_not_half_up :
    (∀ x : ℚ, ∃ z : ℤ, round2 x = (z : ℚ) / 100 ∧ |(z : ℚ) - 100 * x| ≤ 1 / 2 ∧
      (|(z : ℚ) - 100 * x| = 1 / 2 → z % 2 = 0)) ∧
    monthly_payment (1/4) 2 0 ≠ monthly_payment_half_up (1/4) 2 0 :=
  ⟨round2_ties_even, by decide⟩

set_option maxRecDepth 40000 in
/-- C5 counterexample: the periodic payment for (15000, 36, 7.86) is not the
466.80 stated by the spec. -/
theorem example_payment_cex : monthly_payment 15000 36 (7.86 : ℚ) ≠ 466.80 := by
  decide

set_option maxRecDepth 40000 in
/-- C5 (amended): compute(15000.00, 36, 7.86) yields a periodic payment of
469.08; the first row has interest 98.25 and principal component 370.83; the
schedule has exactly 36 rows and the last row's balance is 0.00. -/
theorem example_schedule_values :
    monthly_payment 15000 36 (7.86 : ℚ) = 469.08 ∧
    (calculate_amortization_schedule 15000 36 (7.86 : ℚ)).1.length = 36 ∧
    ((calculate_amortization_schedule 15000 36 (7.86 : ℚ)).1.head?.map Row.interest
      = some 98.25) ∧
    ((calculate_amortization_schedule 15000 36 (7.86 : ℚ)).1.head?.map Row.principal
      = some 370.83) ∧
    ((calculate_amortization_schedule 15000 36 (7.86 : ℚ)).1.getLast?.map Row.balance
      = some 0) := by
  refine ⟨by decide, ?_, by decide, by decide, ?_⟩
  · rw [calc_def]
    exact amortAux_length _ _ 36 36 1 15000
  · rw [calc_def]
    exact (amortAux_last_sum _ _ 36 36 1 15000 (by omega) (by omega)).1

set_option maxRecDepth 10000 in
/-- C6: at zero annual rate every row's interest is 0 and the principal
component equals the constant periodic payment on every row but the last;
concretely (1200, 12, 0) pays 100.00 in all twelve months, the eleventh row
leaves balance 100.00 which the final payment covers exactly, and the
payments total 1200.00. -/
theorem zero_rate_schedule :
    (∀ (amount : ℚ) (months : ℕ) (r : Row),
      r ∈ (calculate_amortization_schedule amount months 0).1 → r.interest = 0) ∧
    (∀ (amount : ℚ) (months : ℕ) (r : Row),
      r ∈ ((calculate_amortization_schedule amount months 0).1).dropLast →
        r.principal = monthly_payment amount months 0) ∧
    ((calculate_amortization_schedule 1200 12 0).1.map Row.payment
      = List.replicate 12 100) ∧
    (((calculate_amortization_schedule 1200 12 0).1.map Row.payment).sum = 1200) ∧
    ((calculate_amortization_schedule 1200 12 0).1[10]?.map Row.balance = some 100) ∧
    ((calculate_amortization_schedule 1200 12 0).1.getLast?.map Row.payment = some 100) := by
  have h0 : (0 : ℚ) / 100 / 12 = 0 := by norm_num
  refine ⟨?_, ?_, by decide, by decide, by decide, by decide⟩
  · intro amount months r hr
    rw [calc_def, h0] at hr
    exact amortAux_zero_rate_interest (monthly_payment amount months 0) months
      months 1 amount r hr
  · intro amount months r hr
    rw [calc_def, h0] at hr
    exact amortAux_zero_rate_principal (monthly_payment amount months 0) months
      (monthly_payment_isCents amount months 0) months 1 amount (by omega) r hr

set_option maxRecDepth 10000 in
/-- C6 witness: both universal parts applied to the first row of the
(1200, 12, 0) schedule. -/
theorem zero_rate_schedule_witness :
    Row.interest ⟨1, 100, 0, 100, 1100⟩ = 0 ∧
    Row.principal ⟨1, 100, 0, 100, 1100⟩ = monthly_payment 1200 12 0 :=
  ⟨zero_rate_schedule.1 1200 12 ⟨1, 100, 0, 100, 1100⟩ (by decide),
   zero_rate_schedule.2.1 1200 12 ⟨1, 100, 0, 100, 1100⟩ (by decide)⟩

/-- C7: for every row of any schedule except the engine's final-row
correction (every row but the last), payment equals interest plus principal
component. -/
theorem payment_split (amount : ℚ) (months : ℕ) (annual_rate : ℚ) (r : Row)
    (hr : r ∈ ((calculate_amortization_schedule amount months annual_rate).1).dropLast) :
    r.payment = r.interest + r.principal := by
  rw [calc_def] at hr
  exact amortAux_payment_split _ _ months
    (monthly_payment_isCents amount months annual_rate)
    months 1 amount r ((List.dropLast_sublist _).subset hr)

set_option maxRecDepth 10000 in
/-- C7 witness: the first row of the (1200, 12, 0) schedule. -/
theorem payment_split_witness :
    Row.payment ⟨1, 100, 0, 100, 1100⟩
      = Row.interest ⟨1, 100, 0, 100, 1100⟩ + Row.principal ⟨1, 100, 0, 100, 1100⟩ :=
  payment_split 1200 12 0 ⟨1, 100, 0, 100, 1100⟩ (by decide)

/-- C8: the grid conversion `row = (index-1) // 25`, `column = (index-1) % 25`
inverts the row-major index construction `index = row*25 + column + 1` for
every cell of the 35-row, 25-column grid. -/
theorem grid_round_trip (r c : ℕ) (hr : r < 35) (hc : c < 25) :
    indexToRowCol (rowColToIndex r c) = (r, c) := by
  simp only [indexToRowCol, rowColToIndex, Prod.mk.injEq]
  omega

/-- C8 witness: cell 590 sits at row 23, column 14, matching the comments at
source lines 417-418. -/
theorem grid_round_trip_witness : indexToRowCol (rowColToIndex 23 14) = (23, 14) :=
  grid_round_trip 23 14 (by omega) (by omega)

/-- C9: the top-left-origin to bottom-left-origin flip at the fixed page
height 297 mm is an involution. -/
theorem flipY_involutive (y : ℚ) : flipY (flipY y) = y := by
  unfold flipY
  ring

theorem digitChar_isDigit {d : ℕ} (h : d < 10) : (digitChar d).isDigit = true := by
  interval_cases d <;> decide

theorem mem_natDigitsAux {c : Char} :
    ∀ fuel n, c ∈ natDigitsAux fuel n → c.isDigit = true := by
  intro fuel
  induction fuel with
  | zero => intro n h; simp [natDigitsAux] at h
  | succ k ih =>
    intro n h
    simp only [natDigitsAux] at h
    by_cases hn : n < 10
    · rw [if_pos hn, List.mem_singleton] at h
      subst h
      exact digitChar_isDigit hn
    · rw [if_neg hn] at h
      rcases List.mem_append.1 h with h1 | h1
      · exact ih _ h1
      · rw [List.mem_singleton] at h1
        subst h1
        exact digitChar_isDigit (Nat.mod_lt _ (by omega))

theorem mem_natDigits {c : Char} {n : ℕ} (h : c ∈ natDigits n) : c.isDigit = true :=
  mem_natDigitsAux (n + 1) n h

theorem mem_groupRev {c : Char} :
    ∀ l : List Char, c ∈ groupRev l → c ∈ l ∨ c = ' '
  | [] => by intro h; exact Or.inl h
  | [a] => by intro h; exact Or.inl h
  | [a, b] => by intro h; exact Or.inl h
  | [a, b, d] => by intro h; exact Or.inl h
  | a :: b :: d :: e :: rest => by
    intro h
    simp only [groupRev, List.mem_cons] at h
    rcases h with h | h | h | h | h
    · exact Or.inl (by simp [h])
    · exact Or.inl (by simp [h])
    · exact Or.inl (by simp [h])
    · exact Or.inr h
    · rcases mem_groupRev (e :: rest) h with h' | h'
      · rcases List.mem_cons.1 h' with h'' | h''
        · exact Or.inl (by simp [h''])
        · exact Or.inl (by simp [List.mem_cons, h''])
      · exact Or.inr h'

theorem mem_groupDigits {c : Char} {ds : List Char} (h : c ∈ groupDigits ds) :
    c ∈ ds ∨ c = ' ' := by
  unfold groupDigits at h
  rw [List.mem_reverse] at h
  rcases mem_groupRev _ h with h' | h'
  · exact Or.inl (List.mem_reverse.1 h')
  · exact Or.inr h'

theorem format_money_data (q : ℚ) :
    (format_money q).data =
      ((if q < 0 then ['-'] else []) ++
        groupDigits (natDigits ((rhe (100 * q)).natAbs / 100))) ++
      ['.', digitChar ((rhe (100 * q)).natAbs % 100 / 10),
        digitChar ((rhe (100 * q)).natAbs % 100 % 10)] := rfl

theorem format_money_head_chars {c : Char} {q : ℚ}
    (h : c ∈ (if q < 0 then ['-'] else []) ++
      groupDigits (natDigits ((rhe (100 * q)).natAbs / 100))) :
    c = '-' ∨ c = ' ' ∨ c.isDigit = true := by
  rcases List.mem_append.1 h with h1 | h1
  · by_cases hq : q < 0
    · rw [if_pos hq, List.mem_singleton] at h1
      exact Or.inl h1
    · rw [if_neg hq] at h1
      exact absurd h1 (List.not_mem_nil c)
  · rcases mem_groupDigits h1 with h' | h'
    · exact Or.inr (Or.inr (mem_natDigits h'))
    · exact Or.inr (Or.inl h')

theorem not_mem_format_money {c : Char} (hdig : c.isDigit = false)
    (h1 : c ≠ '-') (h2 : c ≠ ' ') (h3 : c ≠ '.') (q : ℚ) :
    c ∉ (format_money q).data := by
  rw [format_money_data]
  intro h
  rcases List.mem_append.1 h with h | h
  · rcases format_money_head_chars h with h' | h' | h'
    · exact h1 h'
    · exact h2 h'
    · rw [h'] at hdig
      exact absurd hdig (by decide)
  · simp only [List.mem_cons] at h
    rcases h with h | h | h | h
    · exact h3 h
    · rw [h, digitChar_isDigit (by omega)] at hdig
      exact absurd hdig (by decide)
    · rw [h, digitChar_isDigit (by omega)] at hdig
      exact absurd hdig (by decide)
    · exact absurd h (List.not_mem_nil c)

set_option maxRecDepth 10000 in
/-- C10: `format_money` renders 15000.0 as "15 000.00"; and for every
amount the output ends in a point followed by exactly two decimal digits,
contains no comma (every thousands separator has become a space) and no euro
sign. -/
theorem format_money_spec :
    format_money 15000 = "15 000.00" ∧
    ∀ q : ℚ, ',' ∉ (format_money q).data ∧ '€' ∉ (format_money q).data ∧
      ∃ t d₁ d₂, (format_money q).data = t ++ ['.', d₁, d₂] ∧ '.' ∉ t ∧
        d₁.isDigit = true ∧ d₂.isDigit = true := by
  refine ⟨by decide, fun q => ⟨?_, ?_, ?_⟩⟩
  · exact not_mem_format_money (by decide) (by decide) (by decide) (by decide) q
  · exact not_mem_format_money (by decide) (by decide) (by decide) (by decide) q
  · refine ⟨_, _, _, format_money_data q, ?_, digitChar_isDigit (by omega),
      digitChar_isDigit (by omega)⟩
    intro h
    rcases format_money_head_chars h with h' | h' | h'
    · exact absurd h' (by decide)
    · exact absurd h' (by decide)
    · exact absurd h' (by decide)

end AdriaMoney
